import Mathlib

/-!
Shallow embedding of `src/timezoner/script.py` (class `NHLScheduleAnalyzer`).

Calendar arithmetic mirrors CPython `datetime`: an instant is represented by
the number of seconds from 0001-01-01T00:00:00 of its wall-clock fields
(proleptic Gregorian calendar).  The script only ever works with wall-clock
fields: it parses `startTimeUTC` into an aware datetime, adds a whole-hour
`timedelta` (which shifts the wall-clock fields), and then reads
`strftime` weekday names, `.time()` and `.date()` off those fields.
-/

namespace Timezoner

/-- Gregorian leap-year test, as in CPython `datetime._is_leap`. -/
def isLeap (y : Nat) : Bool :=
  y % 4 == 0 && (y % 100 != 0 || y % 400 == 0)

/-- Length of month `m` (1-based) of year `y`, as in CPython
`datetime._days_in_month`. -/
def daysInMonth (y m : Nat) : Nat :=
  if m == 2 then (if isLeap y then 29 else 28)
  else if m == 4 || m == 6 || m == 9 || m == 11 then 30
  else 31

/-- Days in the months of year `y` strictly before month `m`. -/
def daysBeforeMonth (y m : Nat) : Nat :=
  (List.range (m - 1)).foldl (fun acc i => acc + daysInMonth y (i + 1)) 0

/-- Proleptic-Gregorian ordinal of a calendar date, as in CPython
`datetime._ymd2ord`: 0001-01-01 has ordinal 1. -/
def ymd2ord (y m d : Nat) : Nat :=
  let py := y - 1
  365 * py + py / 4 - py / 100 + py / 400 + daysBeforeMonth y m + d

/-- The instant with calendar ordinal `ord`, `sec` seconds into the day. -/
def mkInstant (ord : Nat) (sec : Nat) : Int :=
  ((ord : Int) - 1) * 86400 + (sec : Int)

/-- Calendar-date ordinal of an instant (what `.date()` exposes, encoded by
its ordinal). -/
def dtDate (t : Int) : Int :=
  Int.ediv t 86400 + 1

/-- Seconds into the day of an instant.  Python compares `datetime.time`
values field-wise (hour, minute, second), which coincides with comparing
seconds into the day. -/
def dtTime (t : Int) : Int :=
  Int.emod t 86400

/-- Weekday names as produced by `strftime` with the weekday directive. -/
def weekdayNames : List String :=
  [("Monday"), ("Tuesday"), ("Wednesday"), ("Thursday"), ("Friday"),
   ("Saturday"), ("Sunday")]

/-- The weekday name of an instant's calendar date: 0001-01-01 (ordinal 1)
is a Monday in the proleptic Gregorian calendar, as in CPython
`date.weekday`. -/
def strftimeA (t : Int) : String :=
  weekdayNames.getD (Int.emod (Int.ediv t 86400) 7).toNat ("")

/-- Seconds into the day of the clock time h:m:s, the value
`datetime.strptime(...).time()` denotes for the window strings. -/
def hms (h m s : Nat) : Int :=
  (h * 3600 + m * 60 + s : Nat)

/-- `_precompute_time_windows` (script lines 43-58): the viewing-window
table, with each time string converted to a clock time. -/
def VIEWING_WINDOWS_TIME : List (String × Int × Int) :=
  [(("Monday"), hms 15 0 0, hms 22 30 0),
   (("Tuesday"), hms 15 0 0, hms 22 30 0),
   (("Wednesday"), hms 15 0 0, hms 22 30 0),
   (("Thursday"), hms 15 0 0, hms 22 30 0),
   (("Friday"), hms 15 0 0, hms 23 30 0),
   (("Saturday"), hms 9 0 0, hms 23 30 0),
   (("Sunday"), hms 9 0 0, hms 22 0 0)]

/-- The dictionary lookup `VIEWING_WINDOWS_TIME[weekday]` guarded by the
membership test `weekday in VIEWING_WINDOWS_TIME` (script lines 128-129). -/
def windowFor (weekday : String) : Option (Int × Int) :=
  (VIEWING_WINDOWS_TIME.find? (fun p => p.1 == weekday)).map (fun p => p.2)

/-- One parsed game: the wall-clock instant of `startTimeUTC` and the date
string stored alongside it (script line 99). -/
abbrev Game := Int × String

/-- One iteration of the `for` loop of `analyze_team_viewing_time` (script
lines 122-132), acting on the `(viewable_games, game_dates)` accumulator. -/
def analyze_step (timezone_offset : Int) (acc : Nat × List String) (g : Game) :
    Nat × List String :=
  let local_time := g.1 + timezone_offset * 3600
  let weekday := strftimeA local_time
  let local_time_only := dtTime local_time
  match windowFor weekday with
  | some (start_time, end_time) =>
      if start_time ≤ local_time_only ∧ local_time_only ≤ end_time then
        (acc.1 + 1, acc.2 ++ [g.2])
      else acc
  | none => acc

/-- The loop of `analyze_team_viewing_time` (script lines 116-134), applied
to the schedule that `get_team_schedule_cached` returned at line 114.
Returns the `(team, viewable_games, game_dates)` triple. -/
def analyze_viewing_loop (team : String) (schedule : List Game)
    (timezone_offset : Int) : String × Nat × List String :=
  let r := schedule.foldl (analyze_step timezone_offset) (0, [])
  (team, r.1, r.2)

/-- Declarative reading of the loop test: the weekday of the
offset-adjusted instant has a viewing-window entry and the local clock time
lies within it, both bounds inclusive. -/
def viewableAt (timezone_offset : Int) (g : Game) : Bool :=
  let local_time := g.1 + timezone_offset * 3600
  match windowFor (strftimeA local_time) with
  | some (start_time, end_time) =>
      decide (start_time ≤ dtTime local_time ∧ dtTime local_time ≤ end_time)
  | none => false

theorem analyze_step_eq_if (timezone_offset : Int) (acc : Nat × List String)
    (g : Game) :
    analyze_step timezone_offset acc g =
      if viewableAt timezone_offset g then (acc.1 + 1, acc.2 ++ [g.2]) else acc := by
  unfold analyze_step viewableAt
  rcases hw : windowFor (strftimeA (g.1 + timezone_offset * 3600)) with _ | ⟨s, e⟩
  · simp only [hw]; simp
  · simp only [hw]
    by_cases h : s ≤ dtTime (g.1 + timezone_offset * 3600) ∧
        dtTime (g.1 + timezone_offset * 3600) ≤ e
    · simp [h]
    · simp only [if_neg h]
      rcases not_and_or.mp h with h1 | h1 <;> simp [h1]

theorem analyze_loop_foldl (timezone_offset : Int) (schedule : List Game)
    (acc : Nat × List String) :
    schedule.foldl (analyze_step timezone_offset) acc =
      (acc.1 + (schedule.filter (viewableAt timezone_offset)).length,
       acc.2 ++ (schedule.filter (viewableAt timezone_offset)).map (fun g => g.2)) := by
  induction schedule generalizing acc with
  | nil => simp
  | cons g gs ih =>
      simp only [List.foldl_cons, List.filter_cons, analyze_step_eq_if]
      by_cases hv : viewableAt timezone_offset g = true
      · simp only [hv, if_pos, ih, List.length_cons, List.map_cons]
        refine Prod.ext ?_ ?_
        · simp; omega
        · simp
      · simp only [hv] at *
        simp only [if_neg, ih]
        simp [hv]

/-- The analysis loop counts and lists exactly the games `viewableAt` the
offset, in schedule order. -/
theorem analyze_loop_spec (team : String) (schedule : List Game)
    (timezone_offset : Int) :
    analyze_viewing_loop team schedule timezone_offset =
      (team, (schedule.filter (viewableAt timezone_offset)).length,
       (schedule.filter (viewableAt timezone_offset)).map (fun g => g.2)) := by
  unfold analyze_viewing_loop
  rw [analyze_loop_foldl]
  simp

/-- Numeric value of a digit character, `none` otherwise. -/
def digit? (c : Char) : Option Nat :=
  if c.isDigit then some (c.toNat - 48) else none

/-- Two decimal digits. -/
def twoDigits? (a b : Char) : Option Nat :=
  match digit? a, digit? b with
  | some x, some y => some (10 * x + y)
  | _, _ => none

/-- Four decimal digits. -/
def fourDigits? (a b c d : Char) : Option Nat :=
  match twoDigits? a b, twoDigits? c d with
  | some x, some y => some (100 * x + y)
  | _, _ => none

/-- Assemble a datetime from parsed fields, validating them the way the
`datetime` constructor does; yields the wall-clock instant. -/
def mkValidInstant (y mo d h mi s : Nat) : Option Int :=
  if 1 ≤ y ∧ y ≤ 9999 ∧ 1 ≤ mo ∧ mo ≤ 12 ∧ 1 ≤ d ∧ d ≤ daysInMonth y mo ∧
      h ≤ 23 ∧ mi ≤ 59 ∧ s ≤ 59 then
    some (mkInstant (ymd2ord y mo d) (h * 3600 + mi * 60 + s))
  else none

/-- Field extraction shared by both accepted shapes of `fromisoformat`. -/
def isoCore (y1 y2 y3 y4 m1 m2 d1 d2 h1 h2 n1 n2 s1 s2 : Char) : Option Int :=
  match fourDigits? y1 y2 y3 y4, twoDigits? m1 m2, twoDigits? d1 d2,
      twoDigits? h1 h2, twoDigits? n1 n2, twoDigits? s1 s2 with
  | some y, some mo, some d, some h, some mi, some s => mkValidInstant y mo d h mi s
  | _, _, _, _, _, _ => none

/-- Model of `datetime.fromisoformat`, restricted to the shapes this script
feeds it: ten date characters, one separator character, a full
`HH:MM:SS` clock, optionally followed by a sign and an `HH:MM` UTC offset
(the script always produces the offset `+00:00` by replacing a `Z`).  The
offset is validated and then discarded, because the script only ever reads
the wall-clock fields of the resulting aware datetime. -/
def fromisoformat (str : String) : Option Int :=
  match str.toList with
  | [y1, y2, y3, y4, '-', m1, m2, '-', d1, d2, _,
     h1, h2, ':', n1, n2, ':', s1, s2] =>
      isoCore y1 y2 y3 y4 m1 m2 d1 d2 h1 h2 n1 n2 s1 s2
  | [y1, y2, y3, y4, '-', m1, m2, '-', d1, d2, _,
     h1, h2, ':', n1, n2, ':', s1, s2, sign, o1, o2, ':', o3, o4] =>
      if sign == '+' || sign == '-' then
        match twoDigits? o1 o2, twoDigits? o3 o4 with
        | some oh, some om =>
            if oh ≤ 23 ∧ om ≤ 59 then
              isoCore y1 y2 y3 y4 m1 m2 d1 d2 h1 h2 n1 n2 s1 s2
            else none
        | _, _ => none
      else none
  | _ => none

/-- The string method call replacing every occurrence of the character Z
with the six characters of the UTC offset suffix (script line 97). -/
def pyReplaceZ (s : String) : String :=
  (s.toList.foldr (fun c acc =>
    if c == 'Z' then '+' :: '0' :: '0' :: ':' :: '0' :: '0' :: acc
    else c :: acc) []).asString

/-- The subscript zero of the split on the character T (script line 99):
the prefix of the string before its first T, or the whole string. -/
def splitTHead (s : String) : String :=
  (s.toList.takeWhile (fun c => c != 'T')).asString

/-- One raw entry of the `games` list of the API payload, keeping the two
fields the script reads.  A missing field models a key absent from the
JSON object. -/
structure RawGame where
  gameType : Option Int
  startTimeUTC : Option String
deriving DecidableEq

/-- The body of the parsing loop of `get_team_schedule_cached` (script
lines 91-101) for one game: the record appended to `parsed_games`, if any.
`none` covers every `continue` path: wrong `gameType`, missing or empty
`startTimeUTC` (the dictionary lookup defaults to the empty string, which
is falsy), a parse error raised by `fromisoformat`, and a date not
strictly after `current_date`. -/
def parseGame (current_date : Int) (game : RawGame) : Option Game :=
  if game.gameType == some 2 then
    match game.startTimeUTC with
    | some start_time =>
        if start_time ≠ ("") then
          match fromisoformat (pyReplaceZ start_time) with
          | some dt =>
              if dtDate dt > current_date then some (dt, splitTHead start_time)
              else none
          | none => none
        else none
    | none => none
  else none

/-- The parsing loop of `get_team_schedule_cached` (script lines 88-101):
the `parsed_games` accumulator after the `for` loop over `games`. -/
def parseGamesLoop (current_date : Int) (games : List RawGame) : List Game :=
  games.foldl (fun parsed_games game =>
    match parseGame current_date game with
    | some r => parsed_games ++ [r]
    | none => parsed_games) []

theorem parseGamesLoop_foldl (current_date : Int) (games : List RawGame)
    (acc : List Game) :
    games.foldl (fun parsed_games game =>
      match parseGame current_date game with
      | some r => parsed_games ++ [r]
      | none => parsed_games) acc = acc ++ games.filterMap (parseGame current_date) := by
  induction games generalizing acc with
  | nil => simp
  | cons g gs ih =>
      simp only [List.foldl_cons, List.filterMap_cons]
      rcases hg : parseGame current_date g with _ | r
      · rw [ih]
      · rw [ih]; simp

/-- The parsing loop is the order-preserving partial map of `parseGame`
over the raw games list. -/
theorem parseGamesLoop_eq_filterMap (current_date : Int) (games : List RawGame) :
    parseGamesLoop current_date games = games.filterMap (parseGame current_date) := by
  unfold parseGamesLoop
  rw [parseGamesLoop_foldl]
  simp

/-- Result of running a piece of Python code that may raise an exception
the code itself does not catch. -/
inductive PyResult (α : Type) where
  | ok (a : α)
  | exn
deriving DecidableEq

/-- A decoded JSON value, keeping what the script reads: an object carries
its games entry when that key is present (holding the list of raw games),
and any non-object value is collapsed into one constructor, on which the
object-style lookup of line 87 raises. -/
inductive JValue where
  | obj (games : Option (List RawGame))
  | nonObj
deriving DecidableEq

/-- A response text, modeled by what `json.loads` makes of it: either text
that decodes to a JSON value, or malformed text on which `json.loads`
raises. -/
inductive Body where
  | parsedAs (v : JValue)
  | malformed
deriving DecidableEq

/-- The network's answer to one request: a 2xx response with some text, or
the `requests.RequestException` path — network error, timeout, or a
non-2xx status turned into an exception by `raise_for_status`. -/
inductive ApiOutcome where
  | httpOk (b : Body)
  | requestFailure
deriving DecidableEq

/-- `json.loads` (script line 85) on a body modeled by its parse status. -/
def json_loads (b : Body) : PyResult JValue :=
  match b with
  | .parsedAs v => .ok v
  | .malformed => .exn

/-- `schedule_data.get` applied to the games key with default empty list
(script line 87); raises `AttributeError` on a non-object value, which the
script does not catch. -/
def getGamesList (v : JValue) : PyResult (List RawGame) :=
  match v with
  | .obj games => .ok (games.getD [])
  | .nonObj => .exn

/-- The per-team url of script line 83. -/
def teamUrl (team : String) : String :=
  ("https://api-web.nhle.com/v1/club-schedule-season/") ++ team ++ ("/now")

/-- The mutable state of one `NHLScheduleAnalyzer`: the schedule cache
`self._cache`, the memo of the `lru_cache` wrapper on `fetch_api_data`
keyed by url, a count of network requests actually issued, and
`self.current_date`, the calendar ordinal computed once in `__init__`
(script line 41). -/
structure AnalyzerState where
  cache : List (String × List Game)
  lru : List (String × Body)
  fetchCount : Nat
  current_date : Int
deriving DecidableEq

/-- `fetch_api_data` (script lines 60-72) together with its `lru_cache`
wrapper: a url already in the memo is answered from it without a request;
otherwise one request is issued (counted by `fetchCount`) and its text is
memoized — the response body on success, and on the exception path the
text of an empty JSON object, which the `except` branch returns. -/
def fetch_api_data (env : String → ApiOutcome) (st : AnalyzerState)
    (url : String) : Body × AnalyzerState :=
  match st.lru.find? (fun p => p.1 == url) with
  | some p => (p.2, st)
  | none =>
      let body := match env url with
        | .httpOk b => b
        | .requestFailure => Body.parsedAs (JValue.obj none)
      (body, { st with lru := st.lru ++ [(url, body)],
                       fetchCount := st.fetchCount + 1 })

/-- `get_team_schedule_cached` (script lines 74-107) as a sequential state
transformer.  The result is `exn` when `json.loads` raises on malformed
text or when the decoded value is not an object; in either case the
exception leaves the function before the caching step of lines 104-105,
so nothing is stored for the team. -/
def get_team_schedule_cached (env : String → ApiOutcome) (st : AnalyzerState)
    (team : String) : PyResult (List Game) × AnalyzerState :=
  match st.cache.find? (fun p => p.1 == team) with
  | some p => (.ok p.2, st)
  | none =>
      match fetch_api_data env st (teamUrl team) with
      | (json_data, st1) =>
          match json_loads json_data with
          | .exn => (.exn, st1)
          | .ok schedule_data =>
              match getGamesList schedule_data with
              | .exn => (.exn, st1)
              | .ok games =>
                  (.ok (parseGamesLoop st1.current_date games),
                   { st1 with cache :=
                       st1.cache ++ [(team, parseGamesLoop st1.current_date games)] })

/-- `analyze_team_viewing_time` (script lines 109-134) as a state
transformer: obtains the schedule from the cache (line 114) and runs the
analysis loop on it; an exception from the schedule lookup propagates. -/
def analyze_team_viewing_time (env : String → ApiOutcome) (st : AnalyzerState)
    (team : String) (timezone_offset : Int) :
    PyResult (String × Nat × List String) × AnalyzerState :=
  match get_team_schedule_cached env st team with
  | (.ok schedule, st1) =>
      (.ok (analyze_viewing_loop team schedule timezone_offset), st1)
  | (.exn, st1) => (.exn, st1)

/-- `NHL_TEAMS` (script lines 21-27), in source order. -/
def NHL_TEAMS : List (Nat × String) :=
  [(1, ("NJD")), (2, ("NYI")), (3, ("NYR")), (4, ("PHI")), (5, ("PIT")),
   (6, ("BOS")), (7, ("BUF")), (8, ("MTL")), (9, ("OTT")), (10, ("TOR")),
   (13, ("FLA")), (14, ("TBL")), (12, ("CAR")), (15, ("WSH")), (16, ("CHI")),
   (17, ("DET")), (18, ("NSH")), (19, ("STL")), (20, ("CGY")), (21, ("COL")),
   (22, ("EDM")), (23, ("VAN")), (24, ("ANA")), (25, ("DAL")), (26, ("LAK")),
   (28, ("SJS")), (29, ("CBJ")), (30, ("MIN")), (52, ("WPG")), (54, ("VGK")),
   (55, ("SEA")), (59, ("UTA"))]

/-- `self.team_list` (script line 33): the dictionary values in insertion
order, as Python dictionaries preserve it. -/
def team_list : List String := NHL_TEAMS.map (fun p => p.2)

/-- One collected entry of `team_rankings`. -/
abbrev TeamResult := String × Nat × List String

/-- The sort key of script line 161: the count at index one. -/
def resCount (x : TeamResult) : Nat := x.2.1

/-- Stable insertion into a list sorted by descending count: the inserted
element goes after every element whose count is at least its own. -/
def insertDesc (x : TeamResult) : List TeamResult → List TeamResult
  | [] => [x]
  | y :: ys => if resCount x ≤ resCount y then y :: insertDesc x ys
               else x :: y :: ys

/-- The library sort of script line 161, by count, descending.  Python's
sort is stable also under the reversed comparison, and a stable
descending-by-key sort is determined uniquely by its input sequence, so
stable insertion sort is extensionally the same function. -/
def sortByCountDesc (l : List TeamResult) : List TeamResult :=
  l.foldl (fun acc x => insertDesc x acc) []

/-- `rank_teams_by_viewing_availability_parallel` (script lines 136-161)
over a warm snapshot: `schedOf` gives the parsed schedule that
`get_team_schedule_cached` returns for each team, fixed for the run, and
`arrival` is the order in which `as_completed` yields the submitted
futures — some permutation of `team_list`, determined by nondeterministic
completion timing.  Each result is appended to `team_rankings` as its
future completes, and the collected list is then sorted. -/
def rank_teams_by_viewing_availability_parallel (schedOf : String → List Game)
    (timezone_offset : Int) (arrival : List String) : List TeamResult :=
  sortByCountDesc (arrival.map (fun team =>
    analyze_viewing_loop team (schedOf team) timezone_offset))

/-- `timezone_range` (script line 168). -/
def timezone_range : List Int := (List.range 25).map (fun i => (i : Int) - 12)

/-- The timezone label of script line 185: the letters UTC, then the sign
(always shown, also for zero), then the decimal offset magnitude with no
padding. -/
def timezoneKey (tz_offset : Int) : String :=
  ("UTC") ++ (if tz_offset < 0 then ("-") else ("+")) ++ toString tz_offset.natAbs

/-- `process_timezone` (script lines 170-176): ranks the teams for one
offset and keeps the first `min top_n_teams length` ranked entries as
pairs of team name and count.  The per-timezone result dictionary is kept
as the list of pairs in insertion order; ranked team names are distinct,
so no key is ever assigned twice. -/
def process_timezone (schedOf : String → List Game) (top_n_teams : Nat)
    (arrivalOf : Int → List String) (tz_offset : Int) :
    Int × List (String × Nat) :=
  let team_rankings :=
    rank_teams_by_viewing_availability_parallel schedOf tz_offset
      (arrivalOf tz_offset)
  (tz_offset,
   (team_rankings.take (min top_n_teams team_rankings.length)).map
     (fun x => (x.1, resCount x)))

/-- `generate_timezone_analysis_parallel` (script lines 163-191):
`outerArrival` is the order in which `as_completed` yields the 25 timezone
futures, a permutation of `timezone_range`; each completed timezone's
result is stored in the analysis dictionary under its label.  Labels are
distinct, so the dictionary is faithfully the association list in
completion order. -/
def generate_timezone_analysis_parallel (schedOf : String → List Game)
    (top_n_teams : Nat) (arrivalOf : Int → List String)
    (outerArrival : List Int) : List (String × List (String × Nat)) :=
  outerArrival.map (fun tz =>
    (timezoneKey tz, (process_timezone schedOf top_n_teams arrivalOf tz).2))

/-- Thread-local control point inside one call of
`get_team_schedule_cached`, used to interleave concurrent callers.  Each
constructor covers the code between two scheduling points: the cache check
of lines 79-81 and the cache store of lines 104-105 are single steps
because they hold `self._cache_lock`; the memo lookup of the `lru_cache`
wrapper, the network request it wraps, and the wrapper's memo store are
separate points because the wrapper does not hold a lock across the
wrapped call, so threads can interleave between them. -/
inductive TPC where
  | start
  | cacheMissed
  | lruMissed
  | storePending (b : Body)
  | gotBody (b : Body)
  | haveParsed (v : List Game)
  | finished (r : PyResult (List Game))
deriving DecidableEq

/-- One thread running `get_team_schedule_cached team`. -/
structure Thread where
  team : String
  pc : TPC
deriving DecidableEq

/-- Shared analyzer state plus the calling threads. -/
structure Config where
  st : AnalyzerState
  threads : List Thread
deriving DecidableEq

/-- One atomic step of a thread, mirroring the corresponding lines of
`get_team_schedule_cached` and `fetch_api_data`. -/
def stepThread (env : String → ApiOutcome) (st : AnalyzerState) (t : Thread) :
    AnalyzerState × Thread :=
  match t.pc with
  | .start =>
      match st.cache.find? (fun p => p.1 == t.team) with
      | some p => (st, { t with pc := .finished (.ok p.2) })
      | none => (st, { t with pc := .cacheMissed })
  | .cacheMissed =>
      match st.lru.find? (fun p => p.1 == teamUrl t.team) with
      | some p => (st, { t with pc := .gotBody p.2 })
      | none => (st, { t with pc := .lruMissed })
  | .lruMissed =>
      let body := match env (teamUrl t.team) with
        | .httpOk b => b
        | .requestFailure => Body.parsedAs (JValue.obj none)
      ({ st with fetchCount := st.fetchCount + 1 },
       { t with pc := .storePending body })
  | .storePending b =>
      ({ st with lru := st.lru ++ [(teamUrl t.team, b)] },
       { t with pc := .gotBody b })
  | .gotBody b =>
      match json_loads b with
      | .exn => (st, { t with pc := .finished .exn })
      | .ok v =>
          match getGamesList v with
          | .exn => (st, { t with pc := .finished .exn })
          | .ok games =>
              (st, { t with pc := .haveParsed (parseGamesLoop st.current_date games) })
  | .haveParsed v =>
      ({ st with cache := st.cache ++ [(t.team, v)] },
       { t with pc := .finished (.ok v) })
  | .finished _ => (st, t)

/-- Step the thread at index `i` of the configuration. -/
def stepConfig (env : String → ApiOutcome) (c : Config) (i : Nat) : Config :=
  match c.threads.get? i with
  | some t =>
      let r := stepThread env c.st t
      { st := r.1, threads := c.threads.set i r.2 }
  | none => c

/-- Run a whole interleaving: at each point the scheduler picks which
thread advances by one atomic step. -/
def runSchedule (env : String → ApiOutcome) (c : Config) (sched : List Nat) :
    Config :=
  sched.foldl (stepConfig env) c

/-- The relation a descending-by-count list is sorted by. -/
def countGE (a b : TeamResult) : Prop := resCount b ≤ resCount a

theorem insertDesc_perm (x : TeamResult) (l : List TeamResult) :
    List.Perm (insertDesc x l) (x :: l) := by
  induction l with
  | nil => exact List.Perm.refl _
  | cons y ys ih =>
      unfold insertDesc
      by_cases h : resCount x ≤ resCount y
      · rw [if_pos h]
        exact (ih.cons y).trans (List.Perm.swap x y ys)
      · rw [if_neg h]

theorem sortByCountDesc_foldl_perm (l : List TeamResult)
    (acc : List TeamResult) :
    List.Perm (l.foldl (fun acc x => insertDesc x acc) acc) (acc ++ l) := by
  induction l generalizing acc with
  | nil => simp
  | cons x t ih =>
      simp only [List.foldl_cons]
      refine (ih (insertDesc x acc)).trans ?_
      refine (List.Perm.append_right t (insertDesc_perm x acc)).trans ?_
      exact List.perm_middle.symm

/-- The sort is a permutation of its input. -/
theorem sortByCountDesc_perm (l : List TeamResult) :
    List.Perm (sortByCountDesc l) l := by
  unfold sortByCountDesc
  simpa using sortByCountDesc_foldl_perm l []

theorem insertDesc_sorted (x : TeamResult) (l : List TeamResult)
    (h : List.Sorted countGE l) : List.Sorted countGE (insertDesc x l) := by
  induction l with
  | nil => simp [insertDesc, List.Sorted]
  | cons y ys ih =>
      have hy := List.sorted_cons.mp h
      unfold insertDesc
      by_cases hc : resCount x ≤ resCount y
      · rw [if_pos hc]
        refine List.sorted_cons.mpr ⟨?_, ih hy.2⟩
        intro z hz
        have := (insertDesc_perm x ys).mem_iff.mp hz
        rcases List.mem_cons.mp this with rfl | hz'
        · exact hc
        · exact hy.1 z hz'
      · rw [if_neg hc]
        refine List.sorted_cons.mpr ⟨?_, h⟩
        intro z hz
        rcases List.mem_cons.mp hz with rfl | hz'
        · exact le_of_not_le hc
        · exact le_trans (hy.1 z hz') (le_of_not_le hc)

theorem sortByCountDesc_foldl_sorted (l : List TeamResult)
    (acc : List TeamResult) (hacc : List.Sorted countGE acc) :
    List.Sorted countGE (l.foldl (fun acc x => insertDesc x acc) acc) := by
  induction l generalizing acc with
  | nil => exact hacc
  | cons x t ih =>
      simp only [List.foldl_cons]
      exact ih _ (insertDesc_sorted x acc hacc)

/-- The sort output is sorted by descending count. -/
theorem sortByCountDesc_sorted (l : List TeamResult) :
    List.Sorted countGE (sortByCountDesc l) := by
  unfold sortByCountDesc
  exact sortByCountDesc_foldl_sorted l [] (by simp)

theorem insertDesc_filter_count (x : TeamResult) (l : List TeamResult)
    (c : Nat) (h : List.Sorted countGE l) :
    (insertDesc x l).filter (fun y => resCount y == c) =
      l.filter (fun y => resCount y == c) ++
        (if resCount x == c then [x] else []) := by
  induction l with
  | nil =>
      cases hpx : resCount x == c <;> simp [insertDesc, hpx]
  | cons y ys ih =>
      have hy := List.sorted_cons.mp h
      unfold insertDesc
      by_cases hc : resCount x ≤ resCount y
      · rw [if_pos hc]
        cases hpy : resCount y == c <;>
          simp [List.filter_cons, hpy, ih hy.2]
      · rw [if_neg hc]
        cases hpx : resCount x == c
        · simp [List.filter_cons, hpx]
        · have hxc : resCount x = c := by simpa using hpx
          have hyx : resCount y < resCount x := Nat.lt_of_not_le hc
          have hnone : (y :: ys).filter (fun y => resCount y == c) = [] := by
            rw [List.filter_eq_nil_iff]
            intro z hz
            have hzle : resCount z ≤ resCount y := by
              rcases List.mem_cons.mp hz with rfl | hz'
              · exact le_refl _
              · exact hy.1 z hz'
            simp only [beq_iff_eq]
            omega
          rw [List.filter_cons, hnone]
          simp [hpx]

/-- Stability of the sort: elements of any fixed count appear in the
output exactly as they appear in the input. -/
theorem sortByCountDesc_filter_count (l : List TeamResult) (c : Nat) :
    (sortByCountDesc l).filter (fun y => resCount y == c) =
      l.filter (fun y => resCount y == c) := by
  unfold sortByCountDesc
  suffices h : ∀ (acc : List TeamResult), List.Sorted countGE acc →
      (l.foldl (fun acc x => insertDesc x acc) acc).filter
          (fun y => resCount y == c) =
        acc.filter (fun y => resCount y == c) ++
          l.filter (fun y => resCount y == c) by
    simpa using h [] (by simp)
  induction l with
  | nil => intro acc _; simp
  | cons x t ih =>
      intro acc hacc
      simp only [List.foldl_cons]
      rw [ih (insertDesc x acc) (insertDesc_sorted x acc hacc)]
      rw [insertDesc_filter_count x acc c hacc]
      simp only [List.filter_cons]
      by_cases hpx : resCount x == c
      · simp [hpx]
      · simp [hpx]

theorem find?_append_none {α : Type} (p : α → Bool) (l₁ l₂ : List α)
    (h : l₁.find? p = none) : (l₁ ++ l₂).find? p = l₂.find? p := by
  rw [List.find?_append, h]
  rfl

theorem fetch_api_data_cache (env : String → ApiOutcome) (st : AnalyzerState)
    (url : String) : (fetch_api_data env st url).2.cache = st.cache := by
  unfold fetch_api_data
  rcases h : st.lru.find? (fun p => p.1 == url) with _ | p <;> simp [h]

theorem fetch_api_data_date (env : String → ApiOutcome) (st : AnalyzerState)
    (url : String) : (fetch_api_data env st url).2.current_date = st.current_date := by
  unfold fetch_api_data
  rcases h : st.lru.find? (fun p => p.1 == url) with _ | p <;> simp [h]

/-- `get_team_schedule_cached` never changes `current_date`: the date used
by the parse filter is the one computed once in `__init__`. -/
theorem get_preserves_date (env : String → ApiOutcome) (st : AnalyzerState)
    (team : String) :
    (get_team_schedule_cached env st team).2.current_date = st.current_date := by
  unfold get_team_schedule_cached
  rcases h : st.cache.find? (fun p => p.1 == team) with _ | p
  · rw [h]
    rcases hf : fetch_api_data env st (teamUrl team) with ⟨b, st1⟩
    have hdate : st1.current_date = st.current_date := by
      have h2 := fetch_api_data_date env st (teamUrl team)
      rw [hf] at h2
      exact h2
    dsimp only
    rcases hl : json_loads b with v | _
    · dsimp only
      rcases hg : getGamesList v with games | _
      · simpa using hdate
      · simpa using hdate
    · simpa using hdate
  · rw [h]

/-- A cache hit returns the stored value and leaves the state unchanged. -/
theorem get_cache_hit (env : String → ApiOutcome) (st : AnalyzerState)
    (team : String) (p : String × List Game)
    (h : st.cache.find? (fun q => q.1 == team) = some p) :
    get_team_schedule_cached env st team = (.ok p.2, st) := by
  unfold get_team_schedule_cached
  rw [h]

/-- After a successful call, every further call is answered from the cache:
it returns the same value and leaves the state — in particular the count of
network requests — untouched. -/
theorem get_idempotent (env : String → ApiOutcome) (st : AnalyzerState)
    (team : String) (v : List Game) (st' : AnalyzerState)
    (h : get_team_schedule_cached env st team = (.ok v, st')) :
    get_team_schedule_cached env st' team = (.ok v, st') := by
  unfold get_team_schedule_cached at h
  split at h
  next p hfind =>
    simp only [Prod.mk.injEq, PyResult.ok.injEq] at h
    obtain ⟨hv, hst⟩ := h
    subst hst
    rw [get_cache_hit env st team p hfind, hv]
  next hfind =>
    split at h
    next json_data st1 hf =>
      split at h
      next hl => exact PyResult.noConfusion (congrArg Prod.fst h)
      next sd hl =>
        split at h
        next hg => exact PyResult.noConfusion (congrArg Prod.fst h)
        next games hg =>
          simp only [Prod.mk.injEq, PyResult.ok.injEq] at h
          obtain ⟨hv, hst⟩ := h
          have hcache1 : st1.cache = st.cache := by
            have h2 := fetch_api_data_cache env st (teamUrl team)
            rw [hf] at h2
            exact h2
          have hfind' : st'.cache.find? (fun p => p.1 == team) =
              some (team, parseGamesLoop st1.current_date games) := by
            rw [← hst]
            dsimp only
            rw [hcache1, find?_append_none _ _ _ hfind]
            simp
          rw [get_cache_hit env st' team _ hfind', hv]

/-- The full `RequestException` path on a cold cache: the fetch returns the
empty-object text, the parse of the empty games list is stored for the
team, exactly one request is counted, and the call returns the empty
schedule. -/
theorem get_request_failure (env : String → ApiOutcome) (st : AnalyzerState)
    (team : String)
    (henv : env (teamUrl team) = .requestFailure)
    (hfind : st.cache.find? (fun p => p.1 == team) = none)
    (hlru : st.lru.find? (fun p => p.1 == teamUrl team) = none) :
    get_team_schedule_cached env st team =
      (.ok [], { st with
        lru := st.lru ++ [(teamUrl team, Body.parsedAs (JValue.obj none))],
        fetchCount := st.fetchCount + 1,
        cache := st.cache ++ [(team, [])] }) := by
  unfold get_team_schedule_cached fetch_api_data
  rw [hfind, hlru, henv]
  rfl

/-- Declarative retention condition: regular-season type code, a present
non-empty start time whose text parses, and a calendar date strictly after
the reference date. -/
def keepSpec (current_date : Int) (g : RawGame) : Prop :=
  g.gameType = some 2 ∧
  ∃ s, g.startTimeUTC = some s ∧ s ≠ ("") ∧
    ∃ dt, fromisoformat (pyReplaceZ s) = some dt ∧ dtDate dt > current_date

theorem parseGame_isSome_iff (current_date : Int) (g : RawGame) :
    (parseGame current_date g).isSome ↔ keepSpec current_date g := by
  obtain ⟨gt, stu⟩ := g
  unfold parseGame keepSpec
  dsimp only
  by_cases ht : gt = some 2
  · subst ht
    simp only [beq_self_eq_true, if_true]
    rcases stu with _ | s
    · simp
    · dsimp only
      by_cases hne : s ≠ ("")
      · rw [if_pos hne]
        rcases hp : fromisoformat (pyReplaceZ s) with _ | dt
        · simp [hp, hne]
        · by_cases hd : dtDate dt > current_date
          · simp [hp, hd, hne]
          · simp [hp, hd, hne]
      · rw [if_neg hne]
        push_neg at hne
        subst hne
        simp
  · have ht' : (gt == some 2) = false := by
      simp [ht]
    rw [ht']
    simp [ht]

theorem parseGame_some_shape (current_date : Int) (g : RawGame) (r : Game)
    (h : parseGame current_date g = some r) :
    ∃ s, g.startTimeUTC = some s ∧
      ∃ dt, fromisoformat (pyReplaceZ s) = some dt ∧ r = (dt, splitTHead s) := by
  unfold parseGame at h
  split at h
  · split at h
    next s hs =>
      split at h
      · split at h
        next dt hp =>
          split at h
          · exact ⟨s, hs, dt, hp, (Option.some.injEq _ _).mp h.symm⟩
          · exact Option.noConfusion h
        next hp => exact Option.noConfusion h
      · exact Option.noConfusion h
    next hs => exact Option.noConfusion h
  · exact Option.noConfusion h

theorem rank_length (schedOf : String → List Game) (off : Int)
    (arrival : List String) :
    (rank_teams_by_viewing_availability_parallel schedOf off arrival).length =
      arrival.length := by
  unfold rank_teams_by_viewing_availability_parallel
  rw [(sortByCountDesc_perm _).length_eq, List.length_map]

theorem sortByCountDesc_counts_sorted (l : List TeamResult) :
    List.Sorted (fun a b : Nat => b ≤ a) ((sortByCountDesc l).map resCount) :=
  List.Pairwise.map resCount (fun _ _ hab => hab) (sortByCountDesc_sorted l)

theorem rank_perm_of_perm (schedOf : String → List Game) (off : Int)
    (arr1 arr2 : List String) (h : List.Perm arr1 arr2) :
    List.Perm (rank_teams_by_viewing_availability_parallel schedOf off arr1)
      (rank_teams_by_viewing_availability_parallel schedOf off arr2) := by
  unfold rank_teams_by_viewing_availability_parallel
  exact (sortByCountDesc_perm _).trans
    ((h.map _).trans (sortByCountDesc_perm _).symm)

/-- The sequence of counts in a ranking depends only on the multiset of
collected results: any two completion orders give the same count column. -/
theorem rank_counts_det (schedOf : String → List Game) (off : Int)
    (arr1 arr2 : List String) (h : List.Perm arr1 arr2) :
    (rank_teams_by_viewing_availability_parallel schedOf off arr1).map resCount =
      (rank_teams_by_viewing_availability_parallel schedOf off arr2).map resCount := by
  haveI : IsAntisymm Nat (fun a b => b ≤ a) :=
    ⟨fun a b h1 h2 => le_antisymm h2 h1⟩
  exact List.eq_of_perm_of_sorted
    ((rank_perm_of_perm schedOf off arr1 arr2 h).map resCount)
    (sortByCountDesc_counts_sorted _) (sortByCountDesc_counts_sorted _)

/-- C3: for every schedule and whole-hour offset the evaluator counts a
game exactly when the weekday of the offset-adjusted instant has a
viewing-window entry and the offset-adjusted clock time lies within it,
both bounds inclusive; the weekday is taken from the offset-adjusted
instant, not the UTC one, so the game at 2024-01-01T02:00:00Z seen at
offset -5 is bucketed as Sunday, 2023-12-31, 21:00 local, not Monday. -/
theorem C3_local_weekday_bucketing :
    (∀ (team : String) (schedule : List Game) (off : Int),
      (analyze_viewing_loop team schedule off).2.1 =
          (schedule.filter (viewableAt off)).length ∧
        (analyze_viewing_loop team schedule off).2.2 =
          (schedule.filter (viewableAt off)).map (fun g => g.2)) ∧
    (∀ (off : Int) (g : Game),
      viewableAt off g = true ↔
        ∃ s e, windowFor (strftimeA (g.1 + off * 3600)) = some (s, e) ∧
          s ≤ dtTime (g.1 + off * 3600) ∧ dtTime (g.1 + off * 3600) ≤ e) ∧
    (∃ dt : Int, fromisoformat (pyReplaceZ ("2024-01-01T02:00:00Z")) = some dt ∧
      strftimeA dt = ("Monday") ∧
      strftimeA (dt + (-5) * 3600) = ("Sunday") ∧
      dtDate (dt + (-5) * 3600) = (ymd2ord 2023 12 31 : Int) ∧
      dtTime (dt + (-5) * 3600) = hms 21 0 0) := by
  refine ⟨?_, ?_, ?_⟩
  · intro team schedule off
    rw [analyze_loop_spec]
    exact ⟨rfl, rfl⟩
  · intro off g
    unfold viewableAt
    dsimp only
    split
    next s e hw =>
      simp only [hw, decide_eq_true_eq, Option.some.injEq, Prod.mk.injEq]
      constructor
      · intro h
        exact ⟨s, e, ⟨rfl, rfl⟩, h⟩
      · rintro ⟨s', e', ⟨rfl, rfl⟩, h⟩
        exact h
    next hw => simp [hw]
  · exact ⟨mkInstant (ymd2ord 2024 1 1) 7200, by decide, by decide, by decide,
      by decide, by decide⟩

/-- C8: the schedule with the single future regular-season game at
2025-01-06T23:00:00Z evaluates to one viewable game at offset -5 (local
Monday 18:00, inside the Monday window) and to zero at offset +9 (local
Tuesday 08:00, before the Tuesday window start). -/
theorem C8_end_to_end_offsets :
    (parseGamesLoop (ymd2ord 2024 6 1 : Int)
        [⟨some 2, some ("2025-01-06T23:00:00Z")⟩]).length = 1 ∧
    (analyze_viewing_loop ("TOR")
        (parseGamesLoop (ymd2ord 2024 6 1 : Int)
          [⟨some 2, some ("2025-01-06T23:00:00Z")⟩]) (-5)).2.1 = 1 ∧
    (analyze_viewing_loop ("TOR")
        (parseGamesLoop (ymd2ord 2024 6 1 : Int)
          [⟨some 2, some ("2025-01-06T23:00:00Z")⟩]) 9).2.1 = 0 ∧
    (∃ dt : Int, fromisoformat (pyReplaceZ ("2025-01-06T23:00:00Z")) = some dt ∧
      strftimeA (dt + (-5) * 3600) = ("Monday") ∧
      dtTime (dt + (-5) * 3600) = hms 18 0 0 ∧
      windowFor ("Monday") = some (hms 15 0 0, hms 22 30 0) ∧
      strftimeA (dt + 9 * 3600) = ("Tuesday") ∧
      dtTime (dt + 9 * 3600) = hms 8 0 0 ∧
      windowFor ("Tuesday") = some (hms 15 0 0, hms 22 30 0)) := by
  refine ⟨by decide, by decide, by decide,
    ⟨mkInstant (ymd2ord 2025 1 6) 82800, by decide, by decide, by decide,
     by decide, by decide, by decide, by decide⟩⟩

/-- C9: the viewable count returned by the analysis equals the length of
the returned date list: they are incremented and appended together. -/
theorem C9_count_matches_dates (team : String) (schedule : List Game)
    (off : Int) :
    (analyze_viewing_loop team schedule off).2.1 =
      (analyze_viewing_loop team schedule off).2.2.length := by
  rw [analyze_loop_spec]
  simp

/-- C10: every date string the analysis reports is the stored date of a
schedule record, which the parser took as the prefix of `startTimeUTC`
before the letter T — the UTC calendar date — never the offset-adjusted
local date; for the game at 2024-01-01T02:00:00Z seen at offset -5 the
reported date is 2024-01-01 although the local day it is watchable on is
2023-12-31. -/
theorem C10_dates_are_utc_dates :
    (∀ (d : Int) (games : List RawGame) (r : Game),
      r ∈ parseGamesLoop d games →
        ∃ g ∈ games, ∃ s, g.startTimeUTC = some s ∧ r.2 = splitTHead s) ∧
    (∀ (team : String) (schedule : List Game) (off : Int) (x : String),
      x ∈ (analyze_viewing_loop team schedule off).2.2 →
        ∃ g ∈ schedule, g.2 = x) ∧
    (∃ dt : Int, fromisoformat (pyReplaceZ ("2024-01-01T02:00:00Z")) = some dt ∧
      (analyze_viewing_loop ("NJD")
          (parseGamesLoop (ymd2ord 2023 12 1 : Int)
            [⟨some 2, some ("2024-01-01T02:00:00Z")⟩]) (-5)).2.2 =
        [("2024-01-01")] ∧
      splitTHead ("2024-01-01T02:00:00Z") = ("2024-01-01") ∧
      dtDate dt = (ymd2ord 2024 1 1 : Int) ∧
      dtDate (dt + (-5) * 3600) = (ymd2ord 2023 12 31 : Int)) := by
  refine ⟨?_, ?_, ?_⟩
  · intro d games r hr
    rw [parseGamesLoop_eq_filterMap] at hr
    obtain ⟨g, hg, hparse⟩ := List.mem_filterMap.mp hr
    obtain ⟨s, hs, dt, _, hrr⟩ := parseGame_some_shape d g r hparse
    exact ⟨g, hg, s, hs, by rw [hrr]⟩
  · intro team schedule off x hx
    have hx2 : x ∈ (schedule.filter (viewableAt off)).map (fun g => g.2) := by
      rw [analyze_loop_spec] at hx
      simpa using hx
    obtain ⟨g, hg, hgx⟩ := List.mem_map.mp hx2
    exact ⟨g, List.mem_of_mem_filter hg, hgx⟩
  · exact ⟨mkInstant (ymd2ord 2024 1 1) 7200, by decide, by decide, by decide,
      by decide, by decide⟩

theorem C10_dates_are_utc_dates_witness :
    (∃ g ∈ [(⟨some 2, some ("2024-01-01T02:00:00Z")⟩ : RawGame)],
      ∃ s, g.startTimeUTC = some s ∧
        ((mkInstant (ymd2ord 2024 1 1) 7200, ("2024-01-01")) : Game).2 =
          splitTHead s) ∧
    (∃ g ∈ parseGamesLoop (ymd2ord 2023 12 1 : Int)
        [⟨some 2, some ("2024-01-01T02:00:00Z")⟩], g.2 = ("2024-01-01")) :=
  ⟨C10_dates_are_utc_dates.1 (ymd2ord 2023 12 1 : Int)
      [⟨some 2, some ("2024-01-01T02:00:00Z")⟩]
      (mkInstant (ymd2ord 2024 1 1) 7200, ("2024-01-01")) (by decide),
   C10_dates_are_utc_dates.2.1 ("NJD")
      (parseGamesLoop (ymd2ord 2023 12 1 : Int)
        [⟨some 2, some ("2024-01-01T02:00:00Z")⟩]) (-5) ("2024-01-01")
      (by decide)⟩

/-- C5: the parser keeps exactly the games with type code 2, a present
non-empty start time that parses, and a date strictly after the reference
date; it is an order-preserving partial map, an unparsable entry is
dropped without affecting the rest, and no call of
`get_team_schedule_cached` ever changes `current_date`, which is computed
once at construction. -/
theorem C5_parser_retention (current_date : Int) :
    (∀ games : List RawGame,
      parseGamesLoop current_date games =
        games.filterMap (parseGame current_date)) ∧
    (∀ g : RawGame, (parseGame current_date g).isSome ↔
      keepSpec current_date g) ∧
    (∀ l₁ l₂ : List RawGame,
      parseGamesLoop current_date (l₁ ++ l₂) =
        parseGamesLoop current_date l₁ ++ parseGamesLoop current_date l₂) ∧
    (∀ (l₁ l₂ : List RawGame) (g : RawGame), parseGame current_date g = none →
      parseGamesLoop current_date (l₁ ++ g :: l₂) =
        parseGamesLoop current_date (l₁ ++ l₂)) ∧
    (∀ (env : String → ApiOutcome) (st : AnalyzerState) (team : String),
      (get_team_schedule_cached env st team).2.current_date =
        st.current_date) := by
  refine ⟨parseGamesLoop_eq_filterMap current_date,
    parseGame_isSome_iff current_date, ?_, ?_, get_preserves_date⟩
  · intro l₁ l₂
    simp [parseGamesLoop_eq_filterMap, List.filterMap_append]
  · intro l₁ l₂ g hg
    simp [parseGamesLoop_eq_filterMap, List.filterMap_append,
      List.filterMap_cons, hg]

theorem C5_parser_retention_witness :
    parseGamesLoop (ymd2ord 2024 6 1 : Int)
        ([] ++ (⟨some 1, some ("2025-01-06T23:00:00Z")⟩ : RawGame) ::
          [(⟨some 2, some ("2025-01-06T23:00:00Z")⟩ : RawGame)]) =
      parseGamesLoop (ymd2ord 2024 6 1 : Int)
        ([] ++ [(⟨some 2, some ("2025-01-06T23:00:00Z")⟩ : RawGame)]) :=
  (C5_parser_retention (ymd2ord 2024 6 1 : Int)).2.2.2.1 []
    [(⟨some 2, some ("2025-01-06T23:00:00Z")⟩ : RawGame)]
    (⟨some 1, some ("2025-01-06T23:00:00Z")⟩ : RawGame) (by decide)

/-- C1 (amended): for a fixed schedule snapshot and offset, any two
completion orders of the worker pool yield rankings that are permutations
of each other with identical count columns — the ranking is deterministic
up to the relative order of teams with equal counts, which follows the
nondeterministic completion order. -/
theorem C1_determinism_up_to_ties (schedOf : String → List Game) (off : Int)
    (arr1 arr2 : List String) (h : List.Perm arr1 arr2) :
    (rank_teams_by_viewing_availability_parallel schedOf off arr1).map resCount =
      (rank_teams_by_viewing_availability_parallel schedOf off arr2).map resCount ∧
    List.Perm (rank_teams_by_viewing_availability_parallel schedOf off arr1)
      (rank_teams_by_viewing_availability_parallel schedOf off arr2) :=
  ⟨rank_counts_det schedOf off arr1 arr2 h,
   rank_perm_of_perm schedOf off arr1 arr2 h⟩

theorem C1_determinism_up_to_ties_witness :
    (rank_teams_by_viewing_availability_parallel (fun _ => []) 0 team_list).map
        resCount =
      (rank_teams_by_viewing_availability_parallel (fun _ => []) 0
        (List.reverse team_list)).map resCount ∧
    List.Perm
      (rank_teams_by_viewing_availability_parallel (fun _ => []) 0 team_list)
      (rank_teams_by_viewing_availability_parallel (fun _ => []) 0
        (List.reverse team_list)) :=
  C1_determinism_up_to_ties (fun _ => []) 0 team_list (List.reverse team_list)
    (List.reverse_perm team_list).symm

/-- C1 counterexample: with every schedule empty (all counts tie at zero)
the rankings produced under two different completion orders of the same
teams differ, so the output is not byte-identical across runs: completion
order does affect the final output. -/
theorem C1_counterexample :
    List.Perm (("NYI") :: ("NJD") :: team_list.drop 2) team_list ∧
    rank_teams_by_viewing_availability_parallel (fun _ => []) 0
        (("NYI") :: ("NJD") :: team_list.drop 2) ≠
      rank_teams_by_viewing_availability_parallel (fun _ => []) 0 team_list :=
  ⟨by decide, by decide⟩

/-- C2 (amended): every ranking is sorted by descending count, and teams
with equal counts retain their pre-sort relative order — the order in
which their futures completed in that run; the pre-sort order is the
nondeterministic completion order, not a fixed original evaluation order,
so the tie order is not reproducible across runs. -/
theorem C2_sorted_and_stable (schedOf : String → List Game) (off : Int)
    (arrival : List String) :
    List.Sorted countGE
      (rank_teams_by_viewing_availability_parallel schedOf off arrival) ∧
    ∀ c : Nat,
      (rank_teams_by_viewing_availability_parallel schedOf off arrival).filter
          (fun y => resCount y == c) =
        (arrival.map (fun team =>
          analyze_viewing_loop team (schedOf team) off)).filter
          (fun y => resCount y == c) := by
  unfold rank_teams_by_viewing_availability_parallel
  exact ⟨sortByCountDesc_sorted _, fun c => sortByCountDesc_filter_count _ c⟩

/-- C2 counterexample: with every schedule empty, a run whose completion
order is the reversed team list lists the tied teams in that completion
order, not in the original evaluation order, and its ranking differs from
the ranking of a run with the original order — the tie order is not
retained across repeated runs. -/
theorem C2_counterexample :
    List.Perm (List.reverse team_list) team_list ∧
    (rank_teams_by_viewing_availability_parallel (fun _ => []) 0
        (List.reverse team_list)).map (fun x => x.1) = List.reverse team_list ∧
    (rank_teams_by_viewing_availability_parallel (fun _ => []) 0 team_list).map
        (fun x => x.1) = team_list ∧
    rank_teams_by_viewing_availability_parallel (fun _ => []) 0
        (List.reverse team_list) ≠
      rank_teams_by_viewing_availability_parallel (fun _ => []) 0 team_list :=
  ⟨List.reverse_perm team_list, by decide, by decide, by decide⟩

/-- C4: the aggregator emits one entry per offset of the range -12..12 —
25 entries, keyed by the canonical labels — and each entry holds exactly
the minimum of `top_n_teams` and the ranking length many team entries,
hence at most `top_n_teams`. -/
theorem C4_aggregator_shape (schedOf : String → List Game) (top_n_teams : Nat)
    (arrivalOf : Int → List String) (outerArrival : List Int)
    (houter : List.Perm outerArrival timezone_range)
    (harr : ∀ tz : Int, List.Perm (arrivalOf tz) team_list) :
    (generate_timezone_analysis_parallel schedOf top_n_teams arrivalOf
        outerArrival).length = 25 ∧
    List.Perm
      ((generate_timezone_analysis_parallel schedOf top_n_teams arrivalOf
          outerArrival).map (fun e => e.1))
      (timezone_range.map timezoneKey) ∧
    (∀ e ∈ generate_timezone_analysis_parallel schedOf top_n_teams arrivalOf
        outerArrival,
      e.2.length = min top_n_teams team_list.length) := by
  refine ⟨?_, ?_, ?_⟩
  · unfold generate_timezone_analysis_parallel
    rw [List.length_map, houter.length_eq]
    rfl
  · unfold generate_timezone_analysis_parallel
    rw [List.map_map]
    exact houter.map timezoneKey
  · intro e he
    unfold generate_timezone_analysis_parallel at he
    obtain ⟨tz, _, rfl⟩ := List.mem_map.mp he
    dsimp only
    unfold process_timezone
    dsimp only
    rw [List.length_map, List.length_take]
    rw [rank_length, (harr tz).length_eq]
    omega

theorem C4_aggregator_shape_witness :
    (generate_timezone_analysis_parallel (fun _ => []) 5 (fun _ => team_list)
        timezone_range).length = 25 ∧
    List.Perm
      ((generate_timezone_analysis_parallel (fun _ => []) 5 (fun _ => team_list)
          timezone_range).map (fun e => e.1))
      (timezone_range.map timezoneKey) ∧
    (∀ e ∈ generate_timezone_analysis_parallel (fun _ => []) 5
        (fun _ => team_list) timezone_range,
      e.2.length = min 5 team_list.length) :=
  C4_aggregator_shape (fun _ => []) 5 (fun _ => team_list) timezone_range
    (List.Perm.refl _) (fun _ => List.Perm.refl _)

/-- C6 (amended): on the RequestException path — network error, timeout
or non-2xx status — with the team not yet cached and the url not yet
memoized, the call returns the empty schedule without raising, stores it
in the cache, counts exactly one request, and a second call returns the
same stored value with the state, in particular the request count,
unchanged. -/
theorem C6_request_failure_behavior (env : String → ApiOutcome)
    (st : AnalyzerState) (team : String)
    (henv : env (teamUrl team) = .requestFailure)
    (hfind : st.cache.find? (fun p => p.1 == team) = none)
    (hlru : st.lru.find? (fun p => p.1 == teamUrl team) = none) :
    (get_team_schedule_cached env st team).1 = .ok [] ∧
    (get_team_schedule_cached env st team).2.cache.find?
        (fun p => p.1 == team) = some (team, []) ∧
    (get_team_schedule_cached env st team).2.fetchCount = st.fetchCount + 1 ∧
    get_team_schedule_cached env (get_team_schedule_cached env st team).2 team =
      ((get_team_schedule_cached env st team).1,
       (get_team_schedule_cached env st team).2) := by
  have h := get_request_failure env st team henv hfind hlru
  refine ⟨by rw [h], ?_, by rw [h], ?_⟩
  · rw [h]
    dsimp only
    rw [find?_append_none _ _ _ hfind]
    simp
  · rw [h]
    exact get_idempotent env st team [] _ h

theorem C6_request_failure_behavior_witness :
    ((get_team_schedule_cached (fun _ => ApiOutcome.requestFailure)
        ⟨[], [], 0, 0⟩ ("NJD")).1 = .ok [] ∧
     (get_team_schedule_cached (fun _ => ApiOutcome.requestFailure)
        ⟨[], [], 0, 0⟩ ("NJD")).2.cache.find?
          (fun p => p.1 == ("NJD")) = some (("NJD"), []) ∧
     (get_team_schedule_cached (fun _ => ApiOutcome.requestFailure)
        ⟨[], [], 0, 0⟩ ("NJD")).2.fetchCount = 0 + 1 ∧
     get_team_schedule_cached (fun _ => ApiOutcome.requestFailure)
        (get_team_schedule_cached (fun _ => ApiOutcome.requestFailure)
          ⟨[], [], 0, 0⟩ ("NJD")).2 ("NJD") =
       ((get_team_schedule_cached (fun _ => ApiOutcome.requestFailure)
          ⟨[], [], 0, 0⟩ ("NJD")).1,
        (get_team_schedule_cached (fun _ => ApiOutcome.requestFailure)
          ⟨[], [], 0, 0⟩ ("NJD")).2)) :=
  C6_request_failure_behavior (fun _ => ApiOutcome.requestFailure)
    ⟨[], [], 0, 0⟩ ("NJD") rfl rfl rfl

/-- C6 counterexample: a 2xx response whose body is malformed makes
`json.loads` raise out of `get_team_schedule_cached`, and no cache entry —
empty or otherwise — is stored for the team, contrary to the claim that
every fetch failure, malformed payloads included, stores an empty
schedule. -/
theorem C6_counterexample :
    (get_team_schedule_cached (fun _ => ApiOutcome.httpOk Body.malformed)
        ⟨[], [], 0, 0⟩ ("NJD")).1 = PyResult.exn ∧
    (get_team_schedule_cached (fun _ => ApiOutcome.httpOk Body.malformed)
        ⟨[], [], 0, 0⟩ ("NJD")).2.cache.find? (fun p => p.1 == ("NJD")) =
      none := by
  exact ⟨rfl, rfl⟩

/-- C7: two concurrent callers for the same team can both pass the
cold-cache check and the memo lookup before either stores, and then each
issues a network request: the interleaved run ends with two counted
fetches although both callers complete normally, so a fetch is not
guaranteed to happen at most once per team per run; sequentially, one
call counts exactly one fetch. -/
theorem C7_duplicate_fetch_race :
    (runSchedule
        (fun _ => ApiOutcome.httpOk (Body.parsedAs (JValue.obj (some []))))
        ⟨⟨[], [], 0, 0⟩, [⟨("NJD"), TPC.start⟩, ⟨("NJD"), TPC.start⟩]⟩
        [0, 1, 0, 1, 0, 1, 0, 0, 0, 1, 1, 1]).st.fetchCount = 2 ∧
    (runSchedule
        (fun _ => ApiOutcome.httpOk (Body.parsedAs (JValue.obj (some []))))
        ⟨⟨[], [], 0, 0⟩, [⟨("NJD"), TPC.start⟩, ⟨("NJD"), TPC.start⟩]⟩
        [0, 1, 0, 1, 0, 1, 0, 0, 0, 1, 1, 1]).threads.map (fun t => t.pc) =
      [TPC.finished (.ok []), TPC.finished (.ok [])] ∧
    (get_team_schedule_cached
        (fun _ => ApiOutcome.httpOk (Body.parsedAs (JValue.obj (some []))))
        ⟨[], [], 0, 0⟩ ("NJD")).2.fetchCount = 1 := by
  exact ⟨by decide, by decide, by decide⟩

end Timezoner
